import Mathlib

/-!
Verification of `bsconv/pytorch/replacers.py`: a rule-based module-replacement
engine for PyTorch module trees.  We give a shallow embedding of the module
tree, the filters and transformers, the `ModuleReplacer` engine and its
recursive rewrite algorithm, and settle the specification's claims about them.

Conventions of the embedding:
* A PyTorch module tree is a rose tree `Module`; each node carries the
  framework attributes the code reads (`isinstance` tags, `kernel_size`,
  presence of a `_reg_loss` method) and its named children in registration
  order.  Entries of the child list whose `isModule` flag is false model
  attributes that are not `torch.nn.Module` instances.
* Scalar losses (Python floats and 0-dim torch tensors) are modelled by
  `TVal`, with `Rat` for the numeric value and strings for dtype and device.
* Filters and transformers are Lean functions with the same signature as the
  Python `apply` methods.
-/

namespace BSConv

/-! ## Scalar loss values (floats and 0-dim tensors) -/

/-- A Python numeric scalar as used by `reg_loss`: either a plain `float`
or a 0-dim torch tensor carrying a dtype and a device. -/
inductive TVal where
  | float (x : Rat)
  | tensor (dtype : String) (device : String) (x : Rat)
  deriving DecidableEq, Repr

/-- Numeric value of a scalar. -/
def TVal.val : TVal → Rat
  | .float x => x
  | .tensor _ _ x => x

/-- The `.device` attribute.  A Python `float` has no `.device`; that case is
only ever reached from dead code (see `regLossLoop`), so it is modelled by a
marker string. -/
def TVal.device : TVal → String
  | .float _ => "<AttributeError: float has no device>"
  | .tensor _ dev _ => dev

/-- Observable "numeric type and device" of the accumulator: `none` for a
plain float, `some (dtype, device)` for a tensor. -/
def TVal.typeDev : TVal → Option (String × String)
  | .float _ => none
  | .tensor d dev _ => some (d, dev)

/-- Python `+` / `+=` between loss scalars: `float + tensor` coerces the float
into the tensor's dtype and device (torch type promotion); `tensor + scalar`
keeps the tensor's dtype and device.  (Cross-dtype tensor-tensor promotion is
left-biased here; no claim depends on it.) -/
def tvAdd : TVal → TVal → TVal
  | .float a, .float b => .float (a + b)
  | .float a, .tensor d dev b => .tensor d dev (a + b)
  | .tensor d dev a, .float b => .tensor d dev (a + b)
  | .tensor d dev a, .tensor _ _ b => .tensor d dev (a + b)

/-! ## Module trees -/

/-- Framework attributes of one node that the code under verification reads.
`isModule` models `isinstance(x, torch.nn.Module)`, `isConv2d` models
`isinstance(x, torch.nn.Conv2d)`, `kernel_size` is the 2-tuple kernel size of
a convolution node, and `reg` is `some v` when the node exposes a `_reg_loss()`
method returning `v` (and `none` when calling `_reg_loss` raises
`AttributeError`). -/
structure MInfo where
  typeName : String
  isModule : Bool
  isConv2d : Bool
  kernel_size : Int × Int
  reg : Option TVal
  deriving DecidableEq, Repr

/-- A module tree: node attributes plus the named children
(`named_children()`, in registration order, unique names). -/
inductive Module where
  | mk (info : MInfo) (children : List (String × Module))

/-- Node attributes accessor. -/
def Module.info : Module → MInfo
  | .mk i _ => i

/-- Named children accessor (`named_children()`). -/
def Module.children : Module → List (String × Module)
  | .mk _ cs => cs

mutual

/-- `module.modules()`: the module itself followed by all descendants that are
modules, depth first. -/
def Module.modules : Module → List Module
  | .mk i cs => .mk i cs :: modulesOfChildren cs

/-- Descendant enumeration over a child list; non-module entries are not
registered submodules and are skipped. -/
def modulesOfChildren : List (String × Module) → List Module
  | [] => []
  | (_, c) :: rest =>
    (if c.info.isModule then c.modules else []) ++ modulesOfChildren rest

end

/-! ## Module filters -/

/-- `ModelFilter.apply`: matches exactly the tree root (empty full name). -/
def modelFilterApply (_module : Module) (_name full_name : String) : Bool :=
  full_name == ""

/-- A kernel-size allowlist entry as passed to `Conv2dFilter`: either a single
dimension or a pair (a Python list of two entries behaves as the pair). -/
inductive KSpec where
  | single (n : Int)
  | pair (a b : Int)
  deriving DecidableEq, Repr

/-- `forceTwoTuple`: a list becomes a tuple, and a non-tuple value `x` is
broadcast to `(x, x)`. -/
def forceTwoTuple : KSpec → Int × Int
  | .single n => (n, n)
  | .pair a b => (a, b)

/-- State of a `Conv2dFilter`: the kernel-size allowlist after construction
(already normalized to 2-tuples), or `none` when no allowlist was given. -/
structure Conv2dFilter where
  kernel_sizes : Option (List (Int × Int))
  deriving DecidableEq, Repr

/-- `Conv2dFilter.__init__`: normalize every allowlist entry with
`forceTwoTuple`; keep `None` as `None`. -/
def Conv2dFilter.make (kernel_sizes : Option (List KSpec)) : Conv2dFilter :=
  ⟨kernel_sizes.map (List.map forceTwoTuple)⟩

/-- `Conv2dFilter.apply`: `False` unless the module is a `torch.nn.Conv2d`;
then `True` iff there is no allowlist or the module's kernel size is in it. -/
def Conv2dFilter.apply (self : Conv2dFilter) (module : Module)
    (_name _full_name : String) : Bool :=
  if !module.info.isConv2d then
    false
  else
    match self.kernel_sizes with
    | none => true
    | some ks => if module.info.kernel_size ∈ ks then true else false

/-! ## Module transformers -/

/-- `RegularizationMethodTransformer.apply` binds a `reg_loss` method onto the
module and returns that same module; the tree is unchanged.  The behaviour of
the bound method is modelled separately by `regLossMethod` below. -/
def regularizationMethodTransformerApply (module : Module)
    (_name _full_name : String) : Module :=
  module

/-- The body of the bound `reg_loss` method: the accumulator `loss` starts as
the float `0.0`; for each sub-loss found, if `loss` is `None` it is replaced by
a fresh float32 tensor `0.0` on the sub-loss's device (this branch is
unreachable: `loss` is never `None`), otherwise `loss += sub_loss`. -/
def regLossLoop : Option TVal → List TVal → Option TVal
  | loss, [] => loss
  | loss, s :: rest =>
    match loss with
    | none => regLossLoop (some (.tensor "float32" s.device 0)) rest
    | some l => regLossLoop (some (tvAdd l s)) rest

/-- The sub-losses collected by `reg_loss`: for every node of
`module.modules()`, the value of its `_reg_loss()` when the method exists
(nodes raising `AttributeError` are skipped by the `try`/`except`). -/
def subLosses (module : Module) : List TVal :=
  module.modules.filterMap (fun m => m.info.reg)

/-- The bound `reg_loss` method attached by `RegularizationMethodTransformer`:
fold the sub-losses of all descendants (inclusive) into an accumulator seeded
with the float `0.0`. -/
def regLossMethod (module : Module) : Option TVal :=
  regLossLoop (some (.float 0)) (subLosses module)

/-- `Conv2dToBSConvUTransformer.apply`: build a `BSConvU` module from the
structural attributes of the source convolution.  The `BSConvU` payload itself
is an external collaborator; the attributes the engine can still observe are
carried over (it is a module, not a `Conv2d`, same kernel size, no
`_reg_loss`). -/
def conv2dToBSConvUTransformerApply (module : Module)
    (_name _full_name : String) : Module :=
  .mk { typeName := "BSConvU", isModule := true, isConv2d := false,
        kernel_size := module.info.kernel_size, reg := none } []

/-- `BSConvSTransformer.apply`: build a `BSConvS` module from the structural
attributes of the source convolution plus the configured `p`,
`with_bn_relu` and `bn_kwargs` (the latter three only parametrize the external
payload and are not observable by the engine). -/
def bsconvSTransformerApply (module : Module)
    (_name _full_name : String) : Module :=
  .mk { typeName := "BSConvS", isModule := true, isConv2d := false,
        kernel_size := module.info.kernel_size, reg := none } []

/-! ## Replacement rules and the engine -/

/-- `ModuleReplacementRule`: an immutable (filter, transformer) pair.  Filters
and transformers are their `apply` functions. -/
structure ModuleReplacementRule where
  filter : Module → String → String → Bool
  transformer : Module → String → String → Module

/-- `ModuleReplacer` state: verbosity level and the ordered rule list. -/
structure ModuleReplacer where
  verbosity : Int
  rules : List ModuleReplacementRule

/-- An argument to `add_rule(*args)`, tagged with the outcome of the
`isinstance` checks: a `ModuleReplacementRule` instance, a `ModuleFilter`
instance, a `ModuleTransformer` instance, or any other object. -/
inductive RuleArg where
  | rule (r : ModuleReplacementRule)
  | filt (f : Module → String → String → Bool)
  | trans (t : Module → String → String → Module)
  | other (tag : String)

/-- `ModuleReplacer.add_rule`: a single `ModuleReplacementRule` is appended
as-is; a (`ModuleFilter`, `ModuleTransformer`) pair is wrapped and appended;
anything else raises `TypeError` (modelled as `Except.error`) and leaves the
engine untouched. -/
def ModuleReplacer.add_rule (self : ModuleReplacer) (args : List RuleArg) :
    ModuleReplacer × Except String Unit :=
  match args with
  | [.rule r] =>
    ({ self with rules := self.rules ++ [r] }, .ok ())
  | [.filt f, .trans t] =>
    ({ self with rules := self.rules ++ [⟨f, t⟩] }, .ok ())
  | _ =>
    (self, .error "Rule must be specified either as instance of ModuleReplacementRule or as pair of ModuleFilter and ModuleTransformer instances")

/-- `ModuleReplacer._apply_rules`: try the rules in insertion order; on the
first filter match, apply that rule's transformer and return `(1, result)`;
if no rule matches return `(0, module)`. -/
def applyRules (rules : List ModuleReplacementRule) (module : Module)
    (name full_name : String) : Nat × Module :=
  match rules with
  | [] => (0, module)
  | rule :: rest =>
    if rule.filter module name full_name then
      (1, rule.transformer module name full_name)
    else
      applyRules rest module name full_name

mutual

/-- `ModuleReplacer._apply_recursively`: snapshot `named_children()`, process
each child in order, and install each processed child back into the parent
(`setattr`), returning the aggregated replacement count. -/
def applyRec (rules : List ModuleReplacementRule) :
    Module → String → Nat × Module
  | .mk info children, pre =>
    let r := applyRecChildren rules children pre
    (r.1, .mk info r.2)

/-- The loop body of `_apply_recursively` over the snapshot of named children:
non-module children are skipped; a child matched by a rule is replaced and not
descended into; an unmatched child is recursed into with the extended name
prefix. -/
def applyRecChildren (rules : List ModuleReplacementRule) :
    List (String × Module) → String → Nat × List (String × Module)
  | [], _ => (0, [])
  | (child_name, child) :: rest, pre =>
    if child.info.isModule then
      let child_full_name := pre ++ child_name
      let r1 := applyRules rules child child_name child_full_name
      let r2 :=
        if r1.1 = 0 then
          applyRec rules child (pre ++ child_name ++ ".")
        else r1
      let rs := applyRecChildren rules rest pre
      (r2.1 + rs.1, (child_name, r2.2) :: rs.2)
    else
      let rs := applyRecChildren rules rest pre
      (rs.1, (child_name, child) :: rs.2)

end

/-- `ModuleReplacer.apply`: apply the rules to the root itself (empty name and
path), then recurse into the children of the resulting module; the returned
count is the printed total `replaced_count + root_replaced_count`. -/
def ModuleReplacer.apply (self : ModuleReplacer) (module : Module) :
    Nat × Module :=
  let root := applyRules self.rules module "" ""
  let rec_ := applyRec self.rules root.2 ""
  (root.1 + rec_.1, rec_.2)

/-- `BSConvU_Replacer.__init__`: one rule, `Conv2dFilter(kernel_sizes)` paired
with `Conv2dToBSConvUTransformer()`, added via `add_rule`. -/
def bsconvU_Replacer (kernel_sizes : Option (List KSpec)) (verbosity : Int) :
    ModuleReplacer :=
  (ModuleReplacer.add_rule { verbosity := verbosity, rules := [] }
    [.filt (Conv2dFilter.apply (Conv2dFilter.make kernel_sizes)),
     .trans conv2dToBSConvUTransformerApply]).1

/-- `BSConvS_Replacer.__init__`: two rules added via `add_rule` in order:
`Conv2dFilter(kernel_sizes)` with `BSConvSTransformer(p, with_bn_relu,
bn_kwargs)`, then `ModelFilter()` with `RegularizationMethodTransformer()`. -/
def bsconvS_Replacer (kernel_sizes : Option (List KSpec)) (verbosity : Int) :
    ModuleReplacer :=
  (ModuleReplacer.add_rule
    ((ModuleReplacer.add_rule { verbosity := verbosity, rules := [] }
      [.filt (Conv2dFilter.apply (Conv2dFilter.make kernel_sizes)),
       .trans bsconvSTransformerApply]).1)
    [.filt modelFilterApply,
     .trans regularizationMethodTransformerApply]).1

/-! ## Instrumented traversal

The same algorithm, additionally recording which rule had its filter evaluated
and which had its transformer invoked, at which full name.  Used to state the
claims about which filters/transformers are (never) called; its count/module
components coincide with the plain functions (`applyRulesEv_fst_snd`,
`applyEv_fst_snd`). -/

/-- Kind of a recorded engine event. -/
inductive EvKind where
  | filterEval
  | transInvoke
  deriving DecidableEq, Repr

/-- One engine event: rule index in the rule list, kind, and the `full_name`
argument passed to the filter or transformer. -/
structure REvent where
  ruleIdx : Nat
  kind : EvKind
  full_name : String
  deriving DecidableEq, Repr

/-- Instrumented `_apply_rules`, with `i` the index of the first rule of
`rules` in the engine's rule list. -/
def applyRulesEvAux (rules : List ModuleReplacementRule) (i : Nat)
    (module : Module) (name full_name : String) :
    Nat × Module × List REvent :=
  match rules with
  | [] => (0, module, [])
  | rule :: rest =>
    if rule.filter module name full_name then
      (1, rule.transformer module name full_name,
       [⟨i, .filterEval, full_name⟩, ⟨i, .transInvoke, full_name⟩])
    else
      let r := applyRulesEvAux rest (i + 1) module name full_name
      (r.1, r.2.1, ⟨i, .filterEval, full_name⟩ :: r.2.2)

/-- Instrumented `_apply_rules` starting at rule index 0. -/
def applyRulesEv (rules : List ModuleReplacementRule) (module : Module)
    (name full_name : String) : Nat × Module × List REvent :=
  applyRulesEvAux rules 0 module name full_name

mutual

/-- Instrumented `_apply_recursively`. -/
def applyRecEv (rules : List ModuleReplacementRule) :
    Module → String → Nat × Module × List REvent
  | .mk info children, pre =>
    let r := applyRecChildrenEv rules children pre
    (r.1, .mk info r.2.1, r.2.2)

/-- Instrumented child loop of `_apply_recursively`. -/
def applyRecChildrenEv (rules : List ModuleReplacementRule) :
    List (String × Module) → String →
    Nat × List (String × Module) × List REvent
  | [], _ => (0, [], [])
  | (child_name, child) :: rest, pre =>
    if child.info.isModule then
      let child_full_name := pre ++ child_name
      let r1 := applyRulesEv rules child child_name child_full_name
      let r2 :=
        if r1.1 = 0 then
          let rr := applyRecEv rules child (pre ++ child_name ++ ".")
          (rr.1, rr.2.1, r1.2.2 ++ rr.2.2)
        else r1
      let rs := applyRecChildrenEv rules rest pre
      (r2.1 + rs.1, (child_name, r2.2.1) :: rs.2.1, r2.2.2 ++ rs.2.2)
    else
      let rs := applyRecChildrenEv rules rest pre
      (rs.1, (child_name, child) :: rs.2.1, rs.2.2)

end

/-- Instrumented `ModuleReplacer.apply`. -/
def applyEv (self : ModuleReplacer) (module : Module) :
    Nat × Module × List REvent :=
  let root := applyRulesEv self.rules module "" ""
  let rec_ := applyRecEv self.rules root.2.1 ""
  (root.1 + rec_.1, rec_.2.1, root.2.2 ++ rec_.2.2)

/-- Number of transformer invocations among recorded events. -/
def transCount (evs : List REvent) : Nat :=
  (evs.filter (fun e => e.kind == .transInvoke)).length

/-! ## Node enumeration for stating "matches no node"

`nodeTriples` lists, independently of any rule list, every
(module, name, full_name) triple the traversal of `ModuleReplacer.apply`
can possibly test: the root at `("", "")` and every module-typed descendant
with its local name and dot-joined path. -/

mutual

/-- All (module, name, full name) triples of module-typed strict descendants
of `m`, under path prefix `pre`. -/
def moduleTriples : Module → String → List (Module × String × String)
  | .mk _ cs, pre => childTriples cs pre

/-- All (module, name, full name) triples of module-typed nodes in the child
list `cs` and their subtrees, under path prefix `pre`. -/
def childTriples : List (String × Module) → String →
    List (Module × String × String)
  | [], _ => []
  | (n, c) :: rest, pre =>
    (if c.info.isModule then
      (c, n, pre ++ n) :: moduleTriples c (pre ++ n ++ ".")
     else []) ++ childTriples rest pre

end

/-- All (module, name, full name) triples a call `apply(root)` can test:
the root itself at name `""`, path `""`, plus all module descendants. -/
def Module.nodeTriples (m : Module) : List (Module × String × String) :=
  (m, "", "") :: childTriples m.children ""

/-! ## Exception-aware engine

Python filters and transformers may raise; the engine does not catch such
exceptions.  This variant gives every filter/transformer an `Except` result
and threads the engine object through every internal call (each method reads
`self.rules` / `self.verbosity`), so the frame property "apply never changes
the engine's own state, whether it returns or propagates an exception" can be
stated.  The engine component of the result is what the caller's reference to
the engine observes after the call, on both outcomes. -/

/-- A raised Python exception, by message. -/
structure PyErr where
  msg : String
  deriving DecidableEq, Repr

/-- A replacement rule whose filter and transformer may raise. -/
structure ModuleReplacementRuleE where
  filter : Module → String → String → Except PyErr Bool
  transformer : Module → String → String → Except PyErr Module

/-- Engine state for the exception-aware variant. -/
structure ModuleReplacerE where
  verbosity : Int
  rules : List ModuleReplacementRuleE

/-- Exception-aware `_apply_rules` over a suffix of the rule list, threading
the engine state. -/
def applyRulesE (self : ModuleReplacerE) (rules : List ModuleReplacementRuleE)
    (module : Module) (name full_name : String) :
    ModuleReplacerE × Except PyErr (Nat × Module) :=
  match rules with
  | [] => (self, .ok (0, module))
  | rule :: rest =>
    match rule.filter module name full_name with
    | .error e => (self, .error e)
    | .ok true =>
      match rule.transformer module name full_name with
      | .error e => (self, .error e)
      | .ok m => (self, .ok (1, m))
    | .ok false => applyRulesE self rest module name full_name

mutual

/-- Exception-aware `_apply_recursively`, threading the engine state. -/
def applyRecE (self : ModuleReplacerE) :
    Module → String → ModuleReplacerE × Except PyErr (Nat × Module)
  | .mk info children, pre =>
    let r := applyRecChildrenE self children pre
    (r.1,
     match r.2 with
     | .error e => .error e
     | .ok (n, cs) => .ok (n, .mk info cs))

/-- Exception-aware child loop of `_apply_recursively`.  An exception aborts
the loop; children already processed stay processed. -/
def applyRecChildrenE (self : ModuleReplacerE) :
    List (String × Module) → String →
    ModuleReplacerE × Except PyErr (Nat × List (String × Module))
  | [], _ => (self, .ok (0, []))
  | (child_name, child) :: rest, pre =>
    if child.info.isModule then
      let r1 := applyRulesE self self.rules child child_name (pre ++ child_name)
      match r1.2 with
      | .error e => (r1.1, .error e)
      | .ok (c1, m1) =>
        let r2 :=
          if c1 = 0 then applyRecE r1.1 child (pre ++ child_name ++ ".")
          else (r1.1, .ok (c1, m1))
        match r2.2 with
        | .error e => (r2.1, .error e)
        | .ok (c2, m2) =>
          let rs := applyRecChildrenE r2.1 rest pre
          match rs.2 with
          | .error e => (rs.1, .error e)
          | .ok (cr, csr) => (rs.1, .ok (c2 + cr, (child_name, m2) :: csr))
    else
      applyRecChildrenE self rest pre

end

/-- Exception-aware `ModuleReplacer.apply`, threading the engine state through
the root rule application and the recursion. -/
def ModuleReplacerE.applyE (self : ModuleReplacerE) (module : Module) :
    ModuleReplacerE × Except PyErr (Nat × Module) :=
  let root := applyRulesE self self.rules module "" ""
  match root.2 with
  | .error e => (root.1, .error e)
  | .ok (rc, m1) =>
    let r := applyRecE root.1 m1 ""
    match r.2 with
    | .error e => (r.1, .error e)
    | .ok (c, m2) => (r.1, .ok (rc + c, m2))

/-! ## Characterization helpers and concrete fixtures -/

/-- The argument shapes `add_rule` accepts: exactly one
`ModuleReplacementRule`, or exactly a (`ModuleFilter`, `ModuleTransformer`)
pair in that order. -/
def goodShape : List RuleArg → Bool
  | [.rule _] => true
  | [.filt _, .trans _] => true
  | _ => false

/-- The rule `add_rule` appends for an accepted argument shape (junk rule on a
rejected shape; never used there). -/
def extractRule : List RuleArg → ModuleReplacementRule
  | [.rule r] => r
  | [.filt f, .trans t] => ⟨f, t⟩
  | _ => ⟨fun _ _ _ => false, fun m _ _ => m⟩

/-- A bare `torch.nn.Conv2d` module with kernel size `k`. -/
def convM (k : Int × Int) : Module :=
  .mk { typeName := "Conv2d", isModule := true, isConv2d := true,
        kernel_size := k, reg := none } []

/-- A plain container module (a module, not a convolution). -/
def containerM (typeName : String) (cs : List (String × Module)) : Module :=
  .mk { typeName := typeName, isModule := true, isConv2d := false,
        kernel_size := (0, 0), reg := none } cs

/-- A rule whose filter always matches and whose transformer returns its input
unchanged. -/
def c3R1 : ModuleReplacementRule :=
  ⟨fun _ _ _ => true, fun module _ _ => module⟩

/-- A second always-matching rule with a visibly different transformer. -/
def c3R2 : ModuleReplacementRule :=
  ⟨fun _ _ _ => true, fun _ _ _ => convM (1, 1)⟩

/-- A childless root module. -/
def c1Root : Module := containerM "Net" []

/-- A replacement root whose child `"c"` is a 3x3 convolution. -/
def c1Replacement : Module := containerM "NewRoot" [("c", convM (3, 3))]

/-- An engine whose first rule replaces the root by `c1Replacement` and whose
second rule replaces 3x3 convolutions. -/
def c1Engine : ModuleReplacer :=
  ⟨0, [⟨modelFilterApply, fun _ _ _ => c1Replacement⟩,
       ⟨(Conv2dFilter.make (some [.single 3])).apply,
        conv2dToBSConvUTransformerApply⟩]⟩

/-! ## Shared lemmas -/

/-- At most one transformer invocation is recorded by `_apply_rules`. -/
theorem transCount_applyRulesEvAux (rules : List ModuleReplacementRule)
    (i : Nat) (m : Module) (n f : String) :
    transCount (applyRulesEvAux rules i m n f).2.2 ≤ 1 := by
  induction rules generalizing i with
  | nil => simp [applyRulesEvAux, transCount]
  | cons r rest ih =>
    by_cases h : r.filter m n f = true
    · simp [applyRulesEvAux, h, transCount]
    · simpa [applyRulesEvAux, h, transCount] using ih (i + 1)

/-! ## Claims -/

/-- Claim C3: first-match-wins.  If the first of two rules matches a node, the
instrumented `_apply_rules` evaluates only the first rule's filter and invokes
only its transformer — no event for a later rule is recorded — and for any
rule list at most one transformer invocation is recorded per node. -/
theorem first_match_wins (r1 r2 : ModuleReplacementRule)
    (rest rules : List ModuleReplacementRule) (m : Module) (n f : String)
    (h : r1.filter m n f = true) :
    applyRulesEv (r1 :: r2 :: rest) m n f =
      (1, r1.transformer m n f,
       [⟨0, .filterEval, f⟩, ⟨0, .transInvoke, f⟩]) ∧
    transCount (applyRulesEv rules m n f).2.2 ≤ 1 := by
  refine ⟨?_, transCount_applyRulesEvAux rules 0 m n f⟩
  simp [applyRulesEv, applyRulesEvAux, h]

/-- Witness for C3 at a concrete engine and node. -/
theorem first_match_wins_witness :
    applyRulesEv [c3R1, c3R2] (convM (3, 3)) "n" "p" =
      (1, convM (3, 3), [⟨0, .filterEval, "p"⟩, ⟨0, .transInvoke, "p"⟩]) ∧
    transCount (applyRulesEv [c3R1, c3R2] (convM (3, 3)) "n" "p").2.2 ≤ 1 :=
  first_match_wins c3R1 c3R2 [] [c3R1, c3R2] (convM (3, 3)) "n" "p" rfl

/-- Claim C6: kernel-size normalization of `Conv2dFilter`: allowlist `[3]`
matches kernel size `(3, 3)` but not `(3, 5)`; the pair form
`[(3,3), (5,5)]` constructs the same filter as the square-broadcast form
`[3, 5]`; and a filter constructed without an allowlist matches every
`Conv2d` module. -/
theorem kernel_size_normalization (n f : String) (m : Module)
    (hm : m.info.isConv2d = true) :
    (Conv2dFilter.make (some [.single 3])).apply (convM (3, 3)) n f = true ∧
    (Conv2dFilter.make (some [.single 3])).apply (convM (3, 5)) n f = false ∧
    Conv2dFilter.make (some [.pair 3 3, .pair 5 5]) =
      Conv2dFilter.make (some [.single 3, .single 5]) ∧
    (Conv2dFilter.make none).apply m n f = true := by
  refine ⟨rfl, rfl, by decide, ?_⟩
  simp [Conv2dFilter.make, Conv2dFilter.apply, hm]

/-- Witness for C6 at a concrete convolution of unusual kernel size. -/
theorem kernel_size_normalization_witness :
    (Conv2dFilter.make (some [.single 3])).apply (convM (3, 3)) "n" "f"
      = true ∧
    (Conv2dFilter.make (some [.single 3])).apply (convM (3, 5)) "n" "f"
      = false ∧
    Conv2dFilter.make (some [.pair 3 3, .pair 5 5]) =
      Conv2dFilter.make (some [.single 3, .single 5]) ∧
    (Conv2dFilter.make none).apply (convM (9, 9)) "n" "f" = true :=
  kernel_size_normalization "n" "f" (convM (9, 9)) rfl

/-- Claim C8: `add_rule` fails exactly on argument lists that are neither a
single pre-built rule nor a (filter, transformer) pair in that order; on
failure the rule list is unchanged, on success exactly the one new rule is
appended at the end, and the verbosity is never touched. -/
theorem add_rule_spec (self : ModuleReplacer) (args : List RuleArg) :
    (self.add_rule args).2.isOk = goodShape args ∧
    (self.add_rule args).1.rules =
      (if goodShape args then self.rules ++ [extractRule args]
       else self.rules) ∧
    (self.add_rule args).1.verbosity = self.verbosity := by
  rcases args with _ | ⟨a, args⟩
  · exact ⟨rfl, rfl, rfl⟩
  rcases args with _ | ⟨b, args⟩
  · cases a <;> exact ⟨rfl, rfl, rfl⟩
  rcases args with _ | ⟨c, args⟩
  · cases a <;> cases b <;> exact ⟨rfl, rfl, rfl⟩
  · cases a <;> cases b <;> exact ⟨rfl, rfl, rfl⟩

/-- `moduleTriples` is `childTriples` of the node's children. -/
theorem moduleTriples_eq_children (m : Module) (pre : String) :
    moduleTriples m pre = childTriples m.children pre := by
  cases m; rfl

/-- `_apply_rules` on a node no rule's filter matches returns `(0, module)`
with the module untouched. -/
theorem applyRules_no_match (rules : List ModuleReplacementRule) (m : Module)
    (n f : String) (h : ∀ r ∈ rules, r.filter m n f = false) :
    applyRules rules m n f = (0, m) := by
  induction rules with
  | nil => rfl
  | cons r rest ih =>
    have hr := h r (List.mem_cons_self ..)
    simpa [applyRules, hr] using
      ih (fun r' hr' => h r' (List.mem_cons_of_mem _ hr'))

mutual

/-- `_apply_recursively` on a subtree none of whose module nodes is matched by
any rule returns count 0 and the subtree unchanged. -/
theorem applyRec_no_match (rules : List ModuleReplacementRule) :
    ∀ (m : Module) (pre : String),
    (∀ t ∈ moduleTriples m pre, ∀ r ∈ rules,
      r.filter t.1 t.2.1 t.2.2 = false) →
    applyRec rules m pre = (0, m)
  | .mk info cs, pre, h => by
    have hcs : applyRecChildren rules cs pre = (0, cs) :=
      applyRecChildren_no_match rules cs pre (by simpa [moduleTriples] using h)
    simp [applyRec, hcs]

/-- Child-loop analogue of `applyRec_no_match`. -/
theorem applyRecChildren_no_match (rules : List ModuleReplacementRule) :
    ∀ (cs : List (String × Module)) (pre : String),
    (∀ t ∈ childTriples cs pre, ∀ r ∈ rules,
      r.filter t.1 t.2.1 t.2.2 = false) →
    applyRecChildren rules cs pre = (0, cs)
  | [], _, _ => rfl
  | (n, c) :: rest, pre, h => by
    by_cases hm : c.info.isModule
    · have h1 : ∀ r ∈ rules, r.filter c n (pre ++ n) = false := fun r hr =>
        h (c, n, pre ++ n) (by simp [childTriples, hm]) r hr
      have h2 : applyRules rules c n (pre ++ n) = (0, c) :=
        applyRules_no_match rules c n (pre ++ n) h1
      have h3 : applyRec rules c (pre ++ n ++ ".") = (0, c) :=
        applyRec_no_match rules c (pre ++ n ++ ".") (fun t ht =>
          h t (by simp [childTriples, hm]; tauto))
      have h4 : applyRecChildren rules rest pre = (0, rest) :=
        applyRecChildren_no_match rules rest pre (fun t ht =>
          h t (by simp [childTriples, hm]; tauto))
      simp [applyRecChildren, hm, h2, h3, h4]
    · have h4 : applyRecChildren rules rest pre = (0, rest) :=
        applyRecChildren_no_match rules rest pre (fun t ht =>
          h t (by simp [childTriples, hm]; tauto))
      simp [applyRecChildren, hm, h4]

end

/-- Claim C4: idempotence of non-matching passes.  If no rule's filter matches
any node of the tree (root included, at its traversal name and path), `apply`
returns the input tree unchanged with total replacement count 0. -/
theorem apply_no_matching_rules (self : ModuleReplacer) (m : Module)
    (h : ∀ t ∈ m.nodeTriples, ∀ r ∈ self.rules,
      r.filter t.1 t.2.1 t.2.2 = false) :
    self.apply m = (0, m) := by
  have hroot : applyRules self.rules m "" "" = (0, m) :=
    applyRules_no_match _ m "" ""
      (fun r hr => h (m, "", "") (by simp [Module.nodeTriples]) r hr)
  have hrec : applyRec self.rules m "" = (0, m) :=
    applyRec_no_match _ m ""
      (fun t ht => h t
        (by rw [moduleTriples_eq_children] at ht
            simp [Module.nodeTriples]; tauto))
  simp [ModuleReplacer.apply, hroot, hrec]

/-- Witness for C4: the `BSConvU_Replacer` preset on a convolution-free tree
replaces nothing and returns the tree unchanged. -/
theorem apply_no_matching_rules_witness :
    (bsconvU_Replacer (some [.pair 3 3, .pair 5 5]) 0).apply
        (containerM "Net" [("relu", containerM "ReLU" [])]) =
      (0, containerM "Net" [("relu", containerM "ReLU" [])]) :=
  apply_no_matching_rules _ _ (by decide)

/-- Claim C5: path correctness.  For a tree root → `a` → `b` traversed by a
one-rule engine whose filter rejects the root (tested at path `""`) and the
direct child (tested at its bare name `a`, no leading dot) and accepts the
grandchild, the recorded filter/transformer calls carry exactly the paths
`""`, `a`, and `a ++ "." ++ b`. -/
theorem apply_path_correctness (v : Int) (r : ModuleReplacementRule)
    (a b : String) (rootInfo cInfo gInfo : MInfo)
    (gcs : List (String × Module))
    (hc : cInfo.isModule = true) (hg : gInfo.isModule = true)
    (hr : r.filter (.mk rootInfo [(a, .mk cInfo [(b, .mk gInfo gcs)])]) "" ""
      = false)
    (hcf : r.filter (.mk cInfo [(b, .mk gInfo gcs)]) a a = false)
    (hgf : r.filter (.mk gInfo gcs) b (a ++ "." ++ b) = true) :
    (applyEv ⟨v, [r]⟩
      (.mk rootInfo [(a, .mk cInfo [(b, .mk gInfo gcs)])])).2.2 =
      [⟨0, .filterEval, ""⟩, ⟨0, .filterEval, a⟩,
       ⟨0, .filterEval, a ++ "." ++ b⟩, ⟨0, .transInvoke, a ++ "." ++ b⟩] := by
  simp [applyEv, applyRulesEv, applyRulesEvAux, applyRecEv,
        applyRecChildrenEv, Module.info, hr, hcf, hgf, hc, hg,
        String.empty_append]

/-- Witness for C5: the innermost node of root → "block1" → "conv1" is tested
and transformed at path exactly `"block1.conv1"`. -/
theorem apply_path_correctness_witness :
    (applyEv ⟨0, [⟨fun _ _ f => f == "block1.conv1", fun mo _ _ => mo⟩]⟩
      (.mk { typeName := "Net", isModule := true, isConv2d := false,
             kernel_size := (0, 0), reg := none }
        [("block1",
          .mk { typeName := "Block", isModule := true, isConv2d := false,
                kernel_size := (0, 0), reg := none }
            [("conv1", convM (3, 3))])])).2.2 =
      [⟨0, .filterEval, ""⟩, ⟨0, .filterEval, "block1"⟩,
       ⟨0, .filterEval, "block1" ++ "." ++ "conv1"⟩,
       ⟨0, .transInvoke, "block1" ++ "." ++ "conv1"⟩] := by
  exact apply_path_correctness 0 _ "block1" "conv1" _ _ _ _
    rfl rfl (by decide) (by decide) (by decide)

/-- Claim C1, counterexample: an engine whose first rule replaces the
(childless) root with `c1Replacement` and whose second rule matches 3x3
convolutions.  `apply` does recurse into the replacement: the replacement's
child `"c"` — a node that exists only inside the transformer's output — has
filters evaluated on it and the convolution rule's transformer invoked on it,
and the total count is 2, not 1. -/
theorem apply_recurses_into_root_replacement_cex :
    c1Root.children = [] ∧
    (applyEv c1Engine c1Root).1 = 2 ∧
    (applyEv c1Engine c1Root).2.2 =
      [⟨0, .filterEval, ""⟩, ⟨0, .transInvoke, ""⟩,
       ⟨0, .filterEval, "c"⟩, ⟨1, .filterEval, "c"⟩,
       ⟨1, .transInvoke, "c"⟩] :=
  ⟨rfl, by decide, by decide⟩

/-- Claim C1 as amended: when a rule matches the root, `apply` replaces the
root with the transformer's output and records exactly 1 match for it, but
then recurses unconditionally into the children of the replacement — the
replacement is traversed by the same pass, and its total count is 1 plus
whatever that traversal replaces. -/
theorem apply_root_match_recurses_into_replacement (self : ModuleReplacer)
    (m : Module) (h : (applyRules self.rules m "" "").1 = 1) :
    self.apply m =
      (1 + (applyRec self.rules (applyRules self.rules m "" "").2 "").1,
       (applyRec self.rules (applyRules self.rules m "" "").2 "").2) := by
  simp [ModuleReplacer.apply, h]

/-- Witness for the amended C1 at the concrete root-replacing engine. -/
theorem apply_root_match_recurses_witness :
    ModuleReplacer.apply c1Engine c1Root =
      (1 + (applyRec c1Engine.rules
              (applyRules c1Engine.rules c1Root "" "").2 "").1,
       (applyRec c1Engine.rules
          (applyRules c1Engine.rules c1Root "" "").2 "").2) :=
  apply_root_match_recurses_into_replacement c1Engine c1Root (by decide)

/-- Claim C9: the reported count counts rule matches, not object
replacements.  On the `BSConvS_Replacer` preset, a non-convolution root is
matched by the `ModelFilter` rule, whose transformer returns the root
unchanged: the root rule application yields `(1, root)` — count 1 with no
replacement — and the preset's total is 1 plus the count of the recursive
pass over the (unchanged) root. -/
theorem count_includes_unreplaced_root (ks : Option (List KSpec)) (v : Int)
    (m : Module) (h : m.info.isConv2d = false) :
    applyRules (bsconvS_Replacer ks v).rules m "" "" = (1, m) ∧
    (bsconvS_Replacer ks v).apply m =
      (1 + (applyRec (bsconvS_Replacer ks v).rules m "").1,
       (applyRec (bsconvS_Replacer ks v).rules m "").2) := by
  have h1 : applyRules (bsconvS_Replacer ks v).rules m "" "" = (1, m) := by
    simp [bsconvS_Replacer, ModuleReplacer.add_rule, applyRules,
          Conv2dFilter.apply, h, modelFilterApply,
          regularizationMethodTransformerApply]
  exact ⟨h1, by simp [ModuleReplacer.apply, h1]⟩

/-- Witness for C9 at the default preset and a concrete container root. -/
theorem count_includes_unreplaced_root_witness :
    applyRules (bsconvS_Replacer (some [.pair 3 3, .pair 5 5]) 0).rules
        (containerM "Net" []) "" "" = (1, containerM "Net" []) ∧
    (bsconvS_Replacer (some [.pair 3 3, .pair 5 5]) 0).apply
        (containerM "Net" []) =
      (1 + (applyRec (bsconvS_Replacer (some [.pair 3 3, .pair 5 5]) 0).rules
              (containerM "Net" []) "").1,
       (applyRec (bsconvS_Replacer (some [.pair 3 3, .pair 5 5]) 0).rules
          (containerM "Net" []) "").2) :=
  count_includes_unreplaced_root (some [.pair 3 3, .pair 5 5]) 0
    (containerM "Net" []) rfl

/-- Claim C2: the `reg_loss` accumulator is seeded with the float `0.0`
(`m0` with no contributing descendant returns exactly that seed); on the first
contribution `s` the accumulator becomes `tvAdd (.float 0) s`, which has `s`'s
numeric type and device and carries `s`'s value (the promotion happens through
the coercing addition `0.0 + s`); and the accumulator is never `None`, so the
explicit `None`-promotion branch of the source is unreachable. -/
theorem regLoss_seed_and_promotion (m m0 : Module) (s l : TVal)
    (rest subs : List TVal)
    (h : subLosses m = s :: rest) (h0 : subLosses m0 = []) :
    regLossMethod m0 = some (.float 0) ∧
    regLossMethod m = regLossLoop (some (tvAdd (.float 0) s)) rest ∧
    (tvAdd (.float 0) s).typeDev = s.typeDev ∧
    (tvAdd (.float 0) s).val = s.val ∧
    regLossLoop (some l) subs ≠ none := by
  refine ⟨by simp [regLossMethod, h0, regLossLoop],
          by simp [regLossMethod, h, regLossLoop],
          by cases s <;> simp [tvAdd, TVal.typeDev],
          by cases s <;> simp [tvAdd, TVal.val],
          ?_⟩
  induction subs generalizing l with
  | nil => simp [regLossLoop]
  | cons s' rest' ih => simpa [regLossLoop] using ih (tvAdd l s')

/-- Witness for C2: a root with one tensor-valued `_reg_loss` descendant. -/
theorem regLoss_seed_and_promotion_witness :
    regLossMethod (containerM "Empty" []) = some (.float 0) ∧
    regLossMethod
        (.mk { typeName := "Net", isModule := true, isConv2d := false,
               kernel_size := (0, 0), reg := none }
          [("conv",
            .mk { typeName := "BSConvS", isModule := true, isConv2d := false,
                  kernel_size := (3, 3),
                  reg := some (.tensor "float32" "cuda:0" (5 / 2)) } [])]) =
      regLossLoop
        (some (tvAdd (.float 0) (.tensor "float32" "cuda:0" (5 / 2)))) [] ∧
    (tvAdd (.float 0) (.tensor "float32" "cuda:0" (5 / 2))).typeDev =
      (TVal.tensor "float32" "cuda:0" (5 / 2)).typeDev ∧
    (tvAdd (.float 0) (.tensor "float32" "cuda:0" (5 / 2))).val =
      (TVal.tensor "float32" "cuda:0" (5 / 2)).val ∧
    regLossLoop (some (.float 1)) [.float 2] ≠ none :=
  regLoss_seed_and_promotion _ (containerM "Empty" [])
    (.tensor "float32" "cuda:0" (5 / 2)) (.float 1) [] [.float 2]
    rfl rfl

/-- Claim C7: aggregation results of the attached `reg_loss`: on a root whose
descendants contribute exactly one sub-loss of value 2.5 the method returns
exactly 2.5 (descendants without `_reg_loss` contribute nothing and raise
nothing), and on a root with no contributing descendant it returns the 0.0
seed. -/
theorem regLoss_aggregation (m m0 : Module) (s : TVal)
    (h : subLosses m = [s]) (hv : s.val = 5 / 2)
    (h0 : subLosses m0 = []) :
    (regLossMethod m).map TVal.val = some (5 / 2 : Rat) ∧
    regLossMethod m0 = some (.float 0) := by
  refine ⟨?_, by simp [regLossMethod, h0, regLossLoop]⟩
  cases s with
  | float x =>
    simp [TVal.val] at hv
    simp [regLossMethod, h, regLossLoop, tvAdd, TVal.val, hv]
  | tensor d dev x =>
    simp [TVal.val] at hv
    simp [regLossMethod, h, regLossLoop, tvAdd, TVal.val, hv]

/-- Witness for C7: a root with one `_reg_loss` descendant returning 2.5 and
one descendant lacking `_reg_loss`. -/
theorem regLoss_aggregation_witness :
    (regLossMethod
        (.mk { typeName := "Net", isModule := true, isConv2d := false,
               kernel_size := (0, 0), reg := none }
          [("relu", containerM "ReLU" []),
           ("conv",
            .mk { typeName := "BSConvS", isModule := true, isConv2d := false,
                  kernel_size := (3, 3),
                  reg := some (.float (5 / 2)) } [])])).map TVal.val =
      some (5 / 2 : Rat) ∧
    regLossMethod (containerM "NoLoss" []) = some (.float 0) :=
  regLoss_aggregation _ (containerM "NoLoss" []) (.float (5 / 2))
    rfl rfl rfl

/-- The instrumented `_apply_rules` computes the same count and module as the
plain one. -/
theorem applyRulesEvAux_proj (rules : List ModuleReplacementRule) (i : Nat)
    (m : Module) (n f : String) :
    (applyRulesEvAux rules i m n f).1 = (applyRules rules m n f).1 ∧
    (applyRulesEvAux rules i m n f).2.1 = (applyRules rules m n f).2 := by
  induction rules generalizing i with
  | nil => exact ⟨rfl, rfl⟩
  | cons r rest ih =>
    by_cases h : r.filter m n f = true
    · simp [applyRulesEvAux, applyRules, h]
    · simpa [applyRulesEvAux, applyRules, h] using ih (i + 1)

mutual

/-- The instrumented `_apply_recursively` computes the same count and module
as the plain one. -/
theorem applyRecEv_proj (rules : List ModuleReplacementRule) :
    ∀ (m : Module) (pre : String),
    (applyRecEv rules m pre).1 = (applyRec rules m pre).1 ∧
    (applyRecEv rules m pre).2.1 = (applyRec rules m pre).2
  | .mk info cs, pre => by
    obtain ⟨h1, h2⟩ := applyRecChildrenEv_proj rules cs pre
    constructor
    · simpa [applyRecEv, applyRec] using h1
    · simp [applyRecEv, applyRec, h2]

/-- Child-loop analogue of `applyRecEv_proj`. -/
theorem applyRecChildrenEv_proj (rules : List ModuleReplacementRule) :
    ∀ (cs : List (String × Module)) (pre : String),
    (applyRecChildrenEv rules cs pre).1 = (applyRecChildren rules cs pre).1 ∧
    (applyRecChildrenEv rules cs pre).2.1 = (applyRecChildren rules cs pre).2
  | [], _ => ⟨rfl, rfl⟩
  | (n, c) :: rest, pre => by
    obtain ⟨hrest1, hrest2⟩ := applyRecChildrenEv_proj rules rest pre
    obtain ⟨hrules1, hrules2⟩ := applyRulesEvAux_proj rules 0 c n (pre ++ n)
    obtain ⟨hrec1, hrec2⟩ := applyRecEv_proj rules c (pre ++ n ++ ".")
    by_cases hm : c.info.isModule
    · by_cases h0 : (applyRulesEvAux rules 0 c n (pre ++ n)).1 = 0
      · have h0' : (applyRules rules c n (pre ++ n)).1 = 0 := by
          rw [← hrules1]; exact h0
        constructor <;>
          simp [applyRecChildrenEv, applyRecChildren, applyRulesEv, hm, h0,
                h0', hrest1, hrest2, hrec1, hrec2]
      · have h0' : ¬(applyRules rules c n (pre ++ n)).1 = 0 := by
          rw [← hrules1]; exact h0
        constructor <;>
          simp [applyRecChildrenEv, applyRecChildren, applyRulesEv, hm, h0,
                h0', hrest1, hrest2, hrules1, hrules2]
    · constructor <;>
        simp [applyRecChildrenEv, applyRecChildren, hm, hrest1, hrest2]

end

/-- The instrumented `apply` computes the same count and module as the plain
one. -/
theorem applyEv_proj (self : ModuleReplacer) (m : Module) :
    (applyEv self m).1 = (self.apply m).1 ∧
    (applyEv self m).2.1 = (self.apply m).2 := by
  obtain ⟨hrules1, hrules2⟩ := applyRulesEvAux_proj self.rules 0 m "" ""
  obtain ⟨hrec1, hrec2⟩ :=
    applyRecEv_proj self.rules (applyRulesEvAux self.rules 0 m "" "").2.1 ""
  rw [hrules2] at hrec1 hrec2
  constructor <;>
    simp [applyEv, ModuleReplacer.apply, applyRulesEv, hrules1, hrules2,
          hrec1, hrec2]

/-- `applyRulesE` only reads the engine state. -/
theorem applyRulesE_frame (self : ModuleReplacerE)
    (rules : List ModuleReplacementRuleE) (m : Module) (n f : String) :
    (applyRulesE self rules m n f).1 = self := by
  induction rules with
  | nil => rfl
  | cons r rest ih =>
    rcases hf : r.filter m n f with e | b
    · simp [applyRulesE, hf]
    · cases b
      · simpa [applyRulesE, hf] using ih
      · rcases ht : r.transformer m n f with e | m' <;> simp [applyRulesE, hf, ht]

mutual

/-- `applyRecE` only reads the engine state, whether it returns or
propagates an exception. -/
theorem applyRecE_frame (self : ModuleReplacerE) :
    ∀ (m : Module) (pre : String), (applyRecE self m pre).1 = self
  | .mk info cs, pre => by
    have h := applyRecChildrenE_frame self cs pre
    simp only [applyRecE]
    exact h

/-- Child-loop analogue of `applyRecE_frame`. -/
theorem applyRecChildrenE_frame (self : ModuleReplacerE) :
    ∀ (cs : List (String × Module)) (pre : String),
    (applyRecChildrenE self cs pre).1 = self
  | [], _ => rfl
  | (n, c) :: rest, pre => by
    have hrules := applyRulesE_frame self self.rules c n (pre ++ n)
    have hrest := applyRecChildrenE_frame self rest pre
    by_cases hm : c.info.isModule
    · simp only [applyRecChildrenE, hm, if_true]
      rw [hrules]
      rcases h2 : (applyRulesE self self.rules c n (pre ++ n)).2
        with e | ⟨c1, m1⟩
      · simp [h2]
      · simp only [h2]
        by_cases hc1 : c1 = 0
        · have hrecE := applyRecE_frame self c (pre ++ n ++ ".")
          simp only [hc1, if_true]
          rw [hrecE]
          rcases h3 : (applyRecE self c (pre ++ n ++ ".")).2 with e | ⟨c2, m2⟩
          · simp [h3]
          · simp only [h3]
            rw [hrest]
            rcases h4 : (applyRecChildrenE self rest pre).2
              with e | ⟨cr, csr⟩ <;> simp [h4, hrest]
        · simp only [hc1, if_false]
          rw [hrest]
          rcases h4 : (applyRecChildrenE self rest pre).2
            with e | ⟨cr, csr⟩ <;> simp [h4, hrest]
    · simpa [applyRecChildrenE, hm] using hrest

end

/-- Claim C10: `apply` leaves the engine's own state unchanged.  In the
exception-aware embedding, which threads the engine object through every
internal call and returns it on both the normal and the exceptional outcome,
the engine after `apply` — its rule list and verbosity included — is exactly
the engine before it, for every rule behaviour, so consecutive calls see the
same rules. -/
theorem applyE_engine_unchanged (self : ModuleReplacerE) (m : Module) :
    (self.applyE m).1 = self ∧
    (self.applyE m).1.rules = self.rules ∧
    (self.applyE m).1.verbosity = self.verbosity := by
  have hroot := applyRulesE_frame self self.rules m "" ""
  have hmain : (self.applyE m).1 = self := by
    simp only [ModuleReplacerE.applyE]
    rcases h1 : (applyRulesE self self.rules m "" "").2 with e | ⟨rc, m1⟩
    · simpa [h1] using hroot
    · simp only [h1]
      have hrec := applyRecE_frame (applyRulesE self self.rules m "" "").1 m1 ""
      rcases h2 : (applyRecE (applyRulesE self self.rules m "" "").1 m1 "").2
        with e | ⟨c, m2⟩ <;> simp only [h2] <;> rw [hrec, hroot]
  exact ⟨hmain, by rw [hmain], by rw [hmain]⟩

end BSConv
